import Mathlib

/-!
Verification of the browser-tab-stats extension core against its
natural-language specification.

The JavaScript source is shallowly embedded:
* `chrome.storage.local` is a record of four optional keys (`Store`);
  an absent key is `none`, mirroring `result.key === undefined`.
* JS objects keyed by tab id / URL / date string become association
  lists (`List (κ × α)`) read through `lookupKey` (first match, which
  coincides with JS object lookup because object keys are unique).
* Timestamps (`Date.now()`) are integers of milliseconds and are passed
  explicitly to every function that calls `Date.now()` in the source.
* JS floating-point arithmetic is modelled with exact rationals `ℚ`;
  on every comparison appearing in the source the double rounding error
  is far below the distance to the threshold, so the models agree.
-/

namespace TabStats

/-- A tab as delivered by `chrome.tabs.query` / lifecycle events, with the
fields the embedded code actually reads (`id`, `url`, `title`, `windowId`).
A missing `url`/`title` is modelled as `""` (the code normalises with
`tab.url || ''`). -/
structure Tab where
  id : Nat
  url : String
  title : String
  windowId : Nat
  deriving DecidableEq, Repr

/-- Persisted per-tab statistics record (see `trackTabCreation`). -/
structure TabStat where
  id : Nat
  url : String
  title : String
  windowId : Nat
  createdAt : Int
  lastAccessedAt : Int
  activationCount : Nat
  domain : String
  deriving DecidableEq, Repr

/-- Extension settings (see `getDefaultSettings` in storage.js). -/
structure Settings where
  trackingEnabled : Bool
  dataRetentionDays : Nat
  inactivityThresholdDays : Nat
  showNotifications : Bool
  autoCloseEnabled : Bool
  deriving DecidableEq, Repr

/-- Default settings returned by `getDefaultSettings`. -/
def getDefaultSettings : Settings :=
  { trackingEnabled := true
    dataRetentionDays := 30
    inactivityThresholdDays := 7
    showNotifications := true
    autoCloseEnabled := false }

/-- A closed-tab history record: the `{...tabStats[tabId], closedAt}` spread
from `trackTabRemoval`, modelled as the snapshot plus the timestamp. -/
structure ClosedTab where
  stat : TabStat
  closedAt : Int
  deriving DecidableEq, Repr

/-- One day's open/close counters inside SessionStats. -/
structure DayCounts where
  opened : Nat
  closed : Nat
  deriving DecidableEq, Repr

/-- SessionStats: `{daily: {...}}`; the `daily` object is an association
list from date-key strings to counters, in property-insertion order
(Chrome preserves insertion order for these non-index string keys). -/
structure SessionStats where
  daily : List (String × DayCounts)
  deriving DecidableEq, Repr

/-- The `chrome.storage.local` contents relevant to this extension.
`none` models an absent key. -/
structure Store where
  tabStats : Option (List (Nat × TabStat))
  closedTabs : Option (List ClosedTab)
  settings : Option Settings
  sessionStats : Option SessionStats
  deriving DecidableEq, Repr

/-- First-match association-list lookup; on lists with unique keys (every
JS object) this is exactly JS property lookup. -/
def lookupKey {κ α : Type} [DecidableEq κ] : List (κ × α) → κ → Option α
  | [], _ => none
  | p :: ps, k => if p.1 = k then some p.2 else lookupKey ps k

/-- Property assignment `obj[k] = v` for a key already present: replaces the
value at `k` and keeps every other entry. -/
def setKey {κ α : Type} [DecidableEq κ] (m : List (κ × α)) (k : κ) (v : α) :
    List (κ × α) :=
  m.map (fun p => if p.1 = k then (k, v) else p)

/-- Property assignment `obj[k] = v` in general: overwrite when present,
append (insertion order) when absent. -/
def insertKey {κ α : Type} [DecidableEq κ] (m : List (κ × α)) (k : κ) (v : α) :
    List (κ × α) :=
  if (lookupKey m k).isSome then setKey m k v else m ++ [(k, v)]

/-- The `result[group].push(item)` step shared by `groupBy` (utils.js) and
the duplicate-detection `urlMap`: append to the group at `k`, creating the
group at the end on first sight of the key. -/
def pushAt {κ α : Type} [DecidableEq κ] (m : List (κ × List α)) (k : κ) (x : α) :
    List (κ × List α) :=
  if (lookupKey m k).isSome then
    m.map (fun p => if p.1 = k then (p.1, p.2 ++ [x]) else p)
  else m ++ [(k, [x])]

section AssocListLemmas

variable {κ α β : Type} [DecidableEq κ]

theorem lookupKey_eq_none_iff (m : List (κ × α)) (k : κ) :
    lookupKey m k = none ↔ k ∉ m.map Prod.fst := by
  induction m with
  | nil => simp [lookupKey]
  | cons p ps ih =>
    by_cases h : p.1 = k
    · simp [lookupKey, h]
    · have h' : ¬k = p.1 := fun hc => h hc.symm
      simp only [lookupKey, if_neg h, List.map_cons, List.mem_cons]
      rw [ih]
      simp [h']

theorem mem_of_lookupKey_eq_some {m : List (κ × α)} {k : κ} {v : α}
    (h : lookupKey m k = some v) : (k, v) ∈ m := by
  induction m with
  | nil => simp [lookupKey] at h
  | cons p ps ih =>
    by_cases hp : p.1 = k
    · simp only [lookupKey, if_pos hp] at h
      have hv : v = p.2 := by
        injection h with h'
        exact h'.symm
      have hpk : (k, v) = p := by
        obtain ⟨a, b⟩ := p
        simp only at hp hv
        rw [hp, hv]
      exact List.mem_cons.2 (Or.inl hpk)
    · simp only [lookupKey, if_neg hp] at h
      exact List.mem_cons_of_mem _ (ih h)

theorem lookupKey_eq_some_of_mem_nodup {m : List (κ × α)} {k : κ} {v : α}
    (hmem : (k, v) ∈ m) (hnd : (m.map Prod.fst).Nodup) : lookupKey m k = some v := by
  induction m with
  | nil => simp at hmem
  | cons p ps ih =>
    simp only [List.map_cons, List.nodup_cons] at hnd
    rcases List.mem_cons.1 hmem with h | h
    · simp [lookupKey, ← h]
    · have hne : p.1 ≠ k := by
        intro hk
        exact hnd.1 (hk ▸ (List.mem_map.2 ⟨(k, v), h, rfl⟩))
      simp [lookupKey, hne, ih h hnd.2]

theorem lookupKey_map_if_self (m : List (κ × α)) (k : κ) (h : α → α) :
    lookupKey (m.map (fun p => if p.1 = k then (p.1, h p.2) else p)) k =
      (lookupKey m k).map h := by
  induction m with
  | nil => simp [lookupKey]
  | cons p ps ih =>
    obtain ⟨a, b⟩ := p
    by_cases ha : a = k
    · simp [lookupKey, ha]
    · simp [lookupKey, ha, ih]

theorem lookupKey_map_if_ne (m : List (κ × α)) {k k' : κ} (h : α → α)
    (hne : k' ≠ k) :
    lookupKey (m.map (fun p => if p.1 = k then (p.1, h p.2) else p)) k' =
      lookupKey m k' := by
  induction m with
  | nil => simp [lookupKey]
  | cons p ps ih =>
    obtain ⟨a, b⟩ := p
    have hkk' : ¬k = k' := fun hc => hne hc.symm
    by_cases ha : a = k
    · have hk' : ¬a = k' := fun hc => hne (hc ▸ ha)
      simp [lookupKey, ha, hk', hkk', ih]
    · by_cases hk' : a = k' <;> simp [lookupKey, ha, hk', hne, ih]

theorem lookupKey_append_of_none {m : List (κ × α)} {k : κ}
    (h : lookupKey m k = none) (m' : List (κ × α)) :
    lookupKey (m ++ m') k = lookupKey m' k := by
  induction m with
  | nil => simp
  | cons p ps ih =>
    by_cases hp : p.1 = k
    · simp [lookupKey, hp] at h
    · simp only [lookupKey, if_neg hp] at h
      simpa [lookupKey, hp] using ih h

theorem lookupKey_append_of_some {m : List (κ × α)} {k : κ} {v : α}
    (h : lookupKey m k = some v) (m' : List (κ × α)) :
    lookupKey (m ++ m') k = some v := by
  induction m with
  | nil => simp [lookupKey] at h
  | cons p ps ih =>
    by_cases hp : p.1 = k
    · simp only [lookupKey, if_pos hp] at h
      simp [lookupKey, hp, h]
    · simp only [lookupKey, if_neg hp] at h
      simpa [lookupKey, hp] using ih h

theorem lookupKey_pushAt_self (m : List (κ × List β)) (k : κ) (x : β) :
    lookupKey (pushAt m k x) k = some ((lookupKey m k).getD [] ++ [x]) := by
  unfold pushAt
  cases h : lookupKey m k with
  | none =>
    simp only [h, Option.isSome_none, Bool.false_eq_true, if_false]
    rw [lookupKey_append_of_none h]
    simp [lookupKey]
  | some ys =>
    simp only [h, Option.isSome_some, if_true]
    rw [lookupKey_map_if_self m k (fun l => l ++ [x])]
    simp [h]

theorem lookupKey_pushAt_ne (m : List (κ × List β)) {k k' : κ} (x : β)
    (hne : k' ≠ k) : lookupKey (pushAt m k x) k' = lookupKey m k' := by
  unfold pushAt
  cases h : lookupKey m k with
  | none =>
    simp only [h, Option.isSome_none, Bool.false_eq_true, if_false]
    cases h' : lookupKey m k' with
    | none =>
      rw [lookupKey_append_of_none h']
      have hkk' : ¬k = k' := fun hc => hne hc.symm
      simp [lookupKey, hkk']
    | some v => rw [lookupKey_append_of_some h']
  | some ys =>
    simp only [h, Option.isSome_some, if_true]
    exact lookupKey_map_if_ne m (fun l => l ++ [x]) hne

theorem keys_pushAt (m : List (κ × List β)) (k : κ) (x : β) :
    (pushAt m k x).map Prod.fst =
      if (lookupKey m k).isSome then m.map Prod.fst else m.map Prod.fst ++ [k] := by
  unfold pushAt
  cases h : lookupKey m k with
  | none => simp [h]
  | some ys =>
    simp only [h, Option.isSome_some, if_true, List.map_map]
    congr 1
    funext p
    by_cases hp : p.1 = k <;> simp [hp]

end AssocListLemmas

section GroupByKey

variable {β κ α : Type} [DecidableEq κ]

/-- The accumulation pattern of `groupBy` (utils.js) and of the duplicate
`urlMap` in `calculateStats`: fold the list, pushing `g b` onto the group
keyed `f b`. -/
def groupByKey (f : β → κ) (g : β → α) (m : List (κ × List α)) :
    List β → List (κ × List α)
  | [] => m
  | b :: l => groupByKey f g (pushAt m (f b) (g b)) l

theorem lookupKey_groupByKey (f : β → κ) (g : β → α) (u : κ) :
    ∀ (l : List β) (m : List (κ × List α)),
      lookupKey (groupByKey f g m l) u =
        match lookupKey m u, (l.filter (fun b => decide (f b = u))).map g with
        | o, [] => o
        | some ys, xs => some (ys ++ xs)
        | none, xs => some xs
  | [], m => by
    cases h : lookupKey m u with
    | none => simp [groupByKey, h]
    | some ys => simp [groupByKey, h]
  | b :: l, m => by
    by_cases hb : f b = u
    · rw [groupByKey, lookupKey_groupByKey f g u l (pushAt m (f b) (g b)), hb,
        lookupKey_pushAt_self]
      cases hm : lookupKey m u with
      | none =>
        simp only [hm, Option.getD_none, List.nil_append]
        cases hl : (l.filter (fun b => decide (f b = u))).map g with
        | nil => simp [hb, hl]
        | cons y ys => simp [hb, hl]
      | some zs =>
        simp only [hm, Option.getD_some]
        cases hl : (l.filter (fun b => decide (f b = u))).map g with
        | nil => simp [hb, hl]
        | cons y ys => simp [hb, hl]
    · rw [groupByKey, lookupKey_groupByKey f g u l (pushAt m (f b) (g b)),
        lookupKey_pushAt_ne m (g b) (fun hc => hb hc.symm)]
      simp [hb]

theorem nodup_keys_groupByKey (f : β → κ) (g : β → α) :
    ∀ (l : List β) (m : List (κ × List α)),
      (m.map Prod.fst).Nodup → ((groupByKey f g m l).map Prod.fst).Nodup
  | [], _, hm => hm
  | b :: l, m, hm => by
    rw [groupByKey]
    refine nodup_keys_groupByKey f g l _ ?_
    rw [keys_pushAt]
    cases h : lookupKey m (f b) with
    | none =>
      have : f b ∉ m.map Prod.fst := (lookupKey_eq_none_iff m (f b)).1 h
      simp [List.nodup_append, hm, this]
    | some ys => simp [hm]

theorem mem_keys_groupByKey_iff (f : β → κ) (g : β → α) (l : List β) (u : κ) :
    u ∈ ((groupByKey f g [] l).map Prod.fst) ↔ ∃ b ∈ l, f b = u := by
  rw [← not_iff_not, ← lookupKey_eq_none_iff, lookupKey_groupByKey f g u l []]
  cases hl : (l.filter (fun b => decide (f b = u))).map g with
  | nil =>
    simp only [lookupKey]
    rw [List.map_eq_nil_iff, List.filter_eq_nil_iff] at hl
    simpa using fun b hb => by simpa using hl b hb
  | cons y ys =>
    simp only [lookupKey]
    constructor
    · intro h; cases h
    · intro h
      obtain ⟨b, hb, hfb⟩ : ∃ b ∈ l, f b = u := by
        have : (l.filter (fun b => decide (f b = u))) ≠ [] := by
          intro hc
          rw [hc] at hl
          simp at hl
        obtain ⟨b, hb⟩ := List.exists_mem_of_ne_nil _ this
        exact ⟨b, (List.mem_filter.1 hb).1, by simpa using (List.mem_filter.1 hb).2⟩
      exact absurd ⟨b, hb, hfb⟩ h

end GroupByKey

section StorageGateway

/-- The `{tabStats, closedTabs, settings}` bundle assembled by
`getAllData` (storage.js), with its `|| {} / || [] / || defaults`
fallbacks for absent keys. -/
structure Bundle where
  tabStats : List (Nat × TabStat)
  closedTabs : List ClosedTab
  settings : Settings
  deriving DecidableEq, Repr

/-- Embeds `getAllData` (storage.js lines 7-17). -/
def getAllData (s : Store) : Bundle :=
  { tabStats := s.tabStats.getD []
    closedTabs := s.closedTabs.getD []
    settings := s.settings.getD getDefaultSettings }

/-- Embeds `exportData` (storage.js lines 100-103): `JSON.stringify` of the
`getAllData` bundle. Serialisation is a bijection on this data, so the
model carries the bundle itself. -/
def exportData (s : Store) : Bundle := getAllData s

/-- Embeds `importData` (storage.js lines 110-123) applied to a payload that
parses to `b`: `chrome.storage.local.set(b)` writes exactly the keys present
in the payload (the three produced by `exportData`) and leaves every other
stored key — in particular `sessionStats` — untouched. -/
def importData (b : Bundle) (s : Store) : Store :=
  { s with
    tabStats := some b.tabStats
    closedTabs := some b.closedTabs
    settings := some b.settings }

/-- Embeds `clearAllStats` (storage.js lines 73-80):
`chrome.storage.local.set({tabStats: {}, closedTabs: []})`. -/
def clearAllStats (s : Store) : Store :=
  { s with tabStats := some [], closedTabs := some [] }

end StorageGateway

section DomainExtraction

/-- Models the host `new URL(url).hostname` of the WHATWG URL parser on the
hierarchical URLs this extension meets (`scheme://[user@]host[:port]/...`):
takes the text after the first `://` up to the first `/`, `?` or `#`, then
strips a userinfo prefix and a port suffix. A string without `://` makes the
constructor throw (or yields an empty hostname), modelled as `none`. -/
def parseHostname (url : String) : Option String :=
  match url.splitOn "://" with
  | _scheme :: rest :: _ =>
    let hostport := rest.takeWhile (fun c => c ≠ '/' ∧ c ≠ '?' ∧ c ≠ '#')
    let host := (hostport.splitOn "@").getLastD hostport
    some (host.takeWhile (fun c => c ≠ ':'))
  | _ => none

/-- Embeds `extractDomain` (background script lines 485-494): `'unknown'`
for a falsy url, otherwise `new URL(url).hostname || 'unknown'`, with
`'unknown'` again when the constructor throws. -/
def extractDomain (url : String) : String :=
  if url = "" then "unknown"
  else
    match parseHostname url with
    | some h => if h = "" then "unknown" else h
    | none => "unknown"

end DomainExtraction

section EventLedger

/-- Embeds `trackTabCreation` (background script lines 407-422). The read of
`tabStats` has no destructuring default in the source; a store missing the
key (never the case after `initializeStorage`) is left unchanged here and
excluded from every theorem by hypothesis. -/
def trackTabCreation (tab : Tab) (timestamp : Int) (s : Store) : Store :=
  match s.tabStats with
  | none => s
  | some m =>
    let stat : TabStat :=
      { id := tab.id
        url := tab.url
        title := if tab.title = "" then "New Tab" else tab.title
        windowId := tab.windowId
        createdAt := timestamp
        lastAccessedAt := timestamp
        activationCount := 1
        domain := extractDomain tab.url }
    { s with tabStats := some (insertKey m tab.id stat) }

/-- Embeds `trackTabUpdate` (background script lines 439-453):
`url = tab.url || old.url`, `title = tab.title || old.title`,
`domain = extractDomain(tab.url || '')`; absent entry falls back to
`trackTabCreation`. -/
def trackTabUpdate (tab : Tab) (timestamp : Int) (s : Store) : Store :=
  match s.tabStats with
  | none => s
  | some m =>
    match lookupKey m tab.id with
    | some old =>
      let stat : TabStat :=
        { old with
          url := if tab.url = "" then old.url else tab.url
          title := if tab.title = "" then old.title else tab.title
          domain := extractDomain tab.url }
      { s with tabStats := some (setKey m tab.id stat) }
    | none => trackTabCreation tab timestamp s

/-- Embeds `trackTabRemoval` (background script lines 455-482): when the id
is tracked, append a `closedAt`-stamped snapshot to `closedTabs`, prune
records at or past the retention cutoff, and delete the live entry; when it
is not tracked, nothing at all is written. -/
def trackTabRemoval (tabId : Nat) (timestamp : Int) (s : Store) : Store :=
  match s.tabStats with
  | none => s
  | some m =>
    match lookupKey m tabId with
    | none => s
    | some st =>
      let closedTab : ClosedTab := { stat := st, closedAt := timestamp }
      let retentionDays : Nat :=
        match s.settings with
        | some cfg => if cfg.dataRetentionDays = 0 then 30 else cfg.dataRetentionDays
        | none => 30
      let cutoffTime : Int := timestamp - retentionDays * 86400000
      let filteredClosedTabs :=
        (s.closedTabs.getD [] ++ [closedTab]).filter
          (fun t => cutoffTime < t.closedAt)
      { s with
        tabStats := some (m.filter (fun p => p.1 ≠ tabId))
        closedTabs := some filteredClosedTabs }

end EventLedger

/-- Replacing the value at a present key is found by lookup. -/
theorem lookupKey_setKey_self {κ α : Type} [DecidableEq κ]
    (m : List (κ × α)) (k : κ) (v : α) (w : α) (h : lookupKey m k = some w) :
    lookupKey (setKey m k v) k = some v := by
  induction m with
  | nil => simp [lookupKey] at h
  | cons p ps ih =>
    by_cases hp : p.1 = k
    · simp [setKey, lookupKey, hp]
    · simp only [lookupKey, if_neg hp] at h
      have hrec := ih h
      simp only [setKey] at hrec ⊢
      simp [lookupKey, hp, hrec]

/-- C9: removing a tab id that has no entry in the stored tabStats map
leaves the entire stored state unchanged — in particular no closed-tab
record is appended and no retention pruning happens. -/
theorem c9_removal_of_untracked_is_noop (tabId : Nat) (now : Int) (s : Store)
    (m : List (Nat × TabStat)) (hm : s.tabStats = some m)
    (habsent : lookupKey m tabId = none) :
    trackTabRemoval tabId now s = s := by
  simp [trackTabRemoval, hm, habsent]

/-- Witness for C9: a store tracking tab 1 is untouched by removal of tab 2. -/
theorem c9_removal_of_untracked_is_noop_witness :
    lookupKey [(1, TabStat.mk 1 "https://a.com/" "A" 1 0 0 1 "a.com")] 2 = none ∧
    trackTabRemoval 2 5000
        (Store.mk (some [(1, TabStat.mk 1 "https://a.com/" "A" 1 0 0 1 "a.com")])
          (some []) (some getDefaultSettings) none) =
      Store.mk (some [(1, TabStat.mk 1 "https://a.com/" "A" 1 0 0 1 "a.com")])
        (some []) (some getDefaultSettings) none :=
  ⟨by decide,
    c9_removal_of_untracked_is_noop 2 5000 _ _ rfl (by decide)⟩

/-- C10 counterexample: with a tracked tab whose stored title is `"old"`,
an update event reporting an empty url but a non-empty title `"new"`
overwrites the stored title, contradicting the claim that the title keeps
its prior value whenever the reported url is empty. -/
theorem c10_title_kept_counterexample :
    ¬ ((lookupKey
          ((trackTabUpdate (Tab.mk 5 "" "new" 1) 900
              (Store.mk
                (some [(5, TabStat.mk 5 "https://example.com/" "old" 1 0 0 3 "example.com")])
                (some []) (some getDefaultSettings) none)).tabStats.getD [])
          5).map (fun st => st.title) = some "old") := by
  decide

/-- C10 (amended): for a tracked tab whose reported url is empty,
`trackTabUpdate` keeps the stored url, sets the stored title to the reported
title when that is non-empty (keeping the prior title otherwise), and sets
the stored domain to `"unknown"`; hence whenever the stored url has a
parseable domain the cached domain no longer equals `extractDomain` of the
stored url. -/
theorem c10_update_with_empty_url (tab : Tab) (now : Int) (s : Store)
    (m : List (Nat × TabStat)) (old : TabStat)
    (hm : s.tabStats = some m) (hold : lookupKey m tab.id = some old)
    (hurl : tab.url = "") :
    ∃ st', lookupKey ((trackTabUpdate tab now s).tabStats.getD []) tab.id = some st' ∧
      st'.url = old.url ∧
      st'.title = (if tab.title = "" then old.title else tab.title) ∧
      st'.domain = "unknown" ∧
      (extractDomain old.url ≠ "unknown" → st'.domain ≠ extractDomain old.url) := by
  refine ⟨{ old with
              url := if tab.url = "" then old.url else tab.url
              title := if tab.title = "" then old.title else tab.title
              domain := extractDomain tab.url }, ?_, ?_, ?_, ?_, ?_⟩
  · simp only [trackTabUpdate, hm, hold]
    exact lookupKey_setKey_self m tab.id _ old hold
  · simp [hurl]
  · rfl
  · simp [hurl, extractDomain]
  · intro hdom
    simp only [hurl]
    simpa [extractDomain] using fun h => (hdom h.symm).elim

/-- Witness for C10 at a concrete tracked tab with a parseable stored url. -/
theorem c10_update_with_empty_url_witness :
    lookupKey [(5, TabStat.mk 5 "https://example.com/" "old" 1 0 0 3 "example.com")] 5 =
      some (TabStat.mk 5 "https://example.com/" "old" 1 0 0 3 "example.com") ∧
    ∃ st', lookupKey
        ((trackTabUpdate (Tab.mk 5 "" "new" 1) 900
            (Store.mk
              (some [(5, TabStat.mk 5 "https://example.com/" "old" 1 0 0 3 "example.com")])
              (some []) (some getDefaultSettings) none)).tabStats.getD [])
        (Tab.mk 5 "" "new" 1).id = some st' ∧
      st'.url = "https://example.com/" ∧
      st'.title = (if (Tab.mk 5 "" "new" 1).title = "" then "old" else (Tab.mk 5 "" "new" 1).title) ∧
      st'.domain = "unknown" ∧
      (extractDomain "https://example.com/" ≠ "unknown" →
        st'.domain ≠ extractDomain "https://example.com/") :=
  ⟨by decide,
    c10_update_with_empty_url (Tab.mk 5 "" "new" 1) 900 _ _
      (TabStat.mk 5 "https://example.com/" "old" 1 0 0 3 "example.com")
      rfl (by decide) rfl⟩

section DateKeys

/-- Civil-calendar date (year, month, day) of a day count relative to
1970-01-01, the standard era-decomposition algorithm over floor division;
this is the date arithmetic behind the host's `Date.toISOString`. -/
def civilFromDays (z0 : Int) : Int × Nat × Nat :=
  let z : Int := z0 + 719468
  let era : Int := Int.fdiv z 146097
  let doe : Nat := (z - era * 146097).toNat
  let yoe : Nat := (doe - doe / 1460 + doe / 36524 - doe / 146096) / 365
  let doy : Nat := doe - (365 * yoe + yoe / 4 - yoe / 100)
  let mp : Nat := (5 * doy + 2) / 153
  let d : Nat := doy - (153 * mp + 2) / 5 + 1
  let m : Nat := if mp < 10 then mp + 3 else mp - 9
  let y : Int := (yoe : Int) + era * 400
  (if m ≤ 2 then y + 1 else y, m, d)

/-- Two-digit zero padding of months and days in an ISO date string. -/
def pad2 (n : Nat) : String := if n < 10 then "0" ++ toString n else toString n

/-- Four-digit zero padding of the year in an ISO date string (years of
this application are 1970..9999; other years never arise here). -/
def pad4 (y : Int) : String :=
  if y < 0 then "-" ++ toString (-y).toNat
  else
    let s := toString y.toNat
    if s.length < 4 then String.mk (List.replicate (4 - s.length) '0') ++ s else s

/-- The `YYYY-MM-DD` date string of an epoch-milliseconds instant in UTC:
what `new Date(ms).toISOString().split('T')[0]` yields. -/
def dateKeyOfMs (ms : Int) : String :=
  let ymd := civilFromDays (Int.fdiv ms 86400000)
  pad4 ymd.1 ++ "-" ++ pad2 ymd.2.1 ++ "-" ++ pad2 ymd.2.2

/-- Embeds `getTodayKey` (background script lines 303-305):
`new Date().toISOString().split('T')[0]` — the UTC calendar date of `now`. -/
def getTodayKey (now : Int) : String := dateKeyOfMs now

/-- Modelled from the spec: "dateKey = local calendar date (YYYY-MM-DD)"
— the calendar date of `now` in a locale `tzOffsetMinutes` minutes east of
UTC, used to compare the claim's wording against `getTodayKey`. -/
def localDateKey (now tzOffsetMinutes : Int) : String :=
  dateKeyOfMs (now + tzOffsetMinutes * 60000)

end DateKeys

section LexOrder

/-- Lexicographic less-or-equal on element lists; with `γ := Char` this is
the comparison JS applies to strings (and `Array.prototype.sort` applies to
the date keys), restricted to the code-point range these keys use. -/
def lexLeB {γ : Type} [LinearOrder γ] : List γ → List γ → Bool
  | [], _ => true
  | _ :: _, [] => false
  | a :: as, b :: bs => if a < b then true else if b < a then false else lexLeB as bs

theorem lexLeB_refl {γ : Type} [LinearOrder γ] : ∀ as : List γ, lexLeB as as = true
  | [] => rfl
  | a :: as => by simp [lexLeB, lt_irrefl, lexLeB_refl as]

theorem lexLeB_total {γ : Type} [LinearOrder γ] :
    ∀ as bs : List γ, lexLeB as bs = true ∨ lexLeB bs as = true
  | [], _ => Or.inl rfl
  | _ :: _, [] => Or.inr rfl
  | a :: as, b :: bs => by
    rcases lt_trichotomy a b with h | h | h
    · left
      simp [lexLeB, h]
    · subst h
      simpa [lexLeB, lt_irrefl] using lexLeB_total as bs
    · right
      simp [lexLeB, h]

theorem lexLeB_trans {γ : Type} [LinearOrder γ] :
    ∀ as bs cs : List γ, lexLeB as bs = true → lexLeB bs cs = true →
      lexLeB as cs = true
  | [], _, _, _, _ => rfl
  | _ :: _, [], _, h1, _ => by simp [lexLeB] at h1
  | _ :: _, _ :: _, [], _, h2 => by simp [lexLeB] at h2
  | a :: as, b :: bs, c :: cs, h1, h2 => by
    by_cases hab : a < b
    · by_cases hbc : b < c
      · simp [lexLeB, lt_trans hab hbc]
      · by_cases hcb : c < b
        · simp [lexLeB, hbc, hcb] at h2
        · have : b = c := le_antisymm (not_lt.1 hcb) (not_lt.1 hbc)
          subst this
          simp [lexLeB, hab]
    · by_cases hba : b < a
      · simp [lexLeB, hab, hba] at h1
      · have hab' : a = b := le_antisymm (not_lt.1 hba) (not_lt.1 hab)
        subst hab'
        simp only [lexLeB, if_neg hab, if_neg hba] at h1
        by_cases hac : a < c
        · simp [lexLeB, hac]
        · by_cases hca : c < a
          · simp [lexLeB, hac, hca] at h2
          · simp only [lexLeB, if_neg hac, if_neg hca] at h2 ⊢
            exact lexLeB_trans as bs cs h1 h2

theorem lexLeB_antisymm {γ : Type} [LinearOrder γ] :
    ∀ as bs : List γ, lexLeB as bs = true → lexLeB bs as = true → as = bs
  | [], [], _, _ => rfl
  | _ :: _, [], h1, _ => by simp [lexLeB] at h1
  | [], _ :: _, _, h2 => by simp [lexLeB] at h2
  | a :: as, b :: bs, h1, h2 => by
    by_cases hab : a < b
    · simp [lexLeB, hab, lt_asymm hab] at h2
    · by_cases hba : b < a
      · simp [lexLeB, hab, hba] at h1
      · have hab' : a = b := le_antisymm (not_lt.1 hba) (not_lt.1 hab)
        subst hab'
        simp only [lexLeB, if_neg hab, if_neg hba] at h1 h2
        rw [lexLeB_antisymm as bs h1 h2]

/-- The JS string comparison (code-unit lexicographic) on date keys. -/
def StrLe (a b : String) : Prop := lexLeB a.data b.data = true

instance : DecidableRel StrLe :=
  fun a b => inferInstanceAs (Decidable (lexLeB a.data b.data = true))

instance : IsTotal String StrLe := ⟨fun a b => lexLeB_total a.data b.data⟩

instance : IsTrans String StrLe :=
  ⟨fun a b c h1 h2 => lexLeB_trans a.data b.data c.data h1 h2⟩

theorem strLe_refl (a : String) : StrLe a a := lexLeB_refl a.data

theorem strLe_antisymm {a b : String} (h1 : StrLe a b) (h2 : StrLe b a) : a = b := by
  have hd : a.data = b.data := lexLeB_antisymm a.data b.data h1 h2
  cases a with
  | mk da =>
    cases b with
    | mk db =>
      simp only at hd
      rw [hd]

end LexOrder

section SessionLedger

/-- The `'opened' | 'closed'` action strings passed to
`updateSessionStats` by the `onCreated` / `onRemoved` listeners. -/
inductive SessionAction where
  | opened
  | closed
  deriving DecidableEq, Repr

/-- The `opened++` / `closed++` increment on one day bucket. -/
def bumpDay (c : DayCounts) (a : SessionAction) : DayCounts :=
  match a with
  | .opened => { c with opened := c.opened + 1 }
  | .closed => { c with closed := c.closed + 1 }

/-- The `if (!sessionStats.daily[todayKey]) sessionStats.daily[todayKey] =
{opened: 0, closed: 0}` step: create today's bucket when absent (property
creation appends in key order). -/
def ensureToday (key : String) (daily : List (String × DayCounts)) :
    List (String × DayCounts) :=
  if (lookupKey daily key).isSome then daily else daily ++ [(key, DayCounts.mk 0 0)]

/-- The increment step on the bucket at `key`. -/
def bumpAt (key : String) (action : SessionAction)
    (daily : List (String × DayCounts)) : List (String × DayCounts) :=
  daily.map (fun p => if p.1 = key then (p.1, bumpDay p.2 action) else p)

/-- The retention step of `updateSessionStats`
(`Object.keys(...).sort()` then delete all but the last 30): when more than
30 keys exist, the entries whose keys fall in the sorted prefix are
removed. -/
def pruneDaily (daily : List (String × DayCounts)) : List (String × DayCounts) :=
  let keys := (daily.map Prod.fst).insertionSort StrLe
  if 30 < keys.length then
    let keysToRemove := keys.take (keys.length - 30)
    daily.filter (fun p => decide (p.1 ∉ keysToRemove))
  else daily

/-- Embeds the `daily` transformation of `updateSessionStats` (background
script lines 347-369): ensure today's bucket, increment it, prune to the 30
last keys. -/
def updateDaily (action : SessionAction) (now : Int)
    (daily : List (String × DayCounts)) : List (String × DayCounts) :=
  pruneDaily (bumpAt (getTodayKey now) action (ensureToday (getTodayKey now) daily))

/-- Embeds `updateSessionStats` at the store level, with the destructuring
default `{ sessionStats = { daily: {} } }`. -/
def updateSessionStats (action : SessionAction) (now : Int) (s : Store) : Store :=
  { s with sessionStats := some (SessionStats.mk
      (updateDaily action now (s.sessionStats.getD (SessionStats.mk [])).daily)) }

end SessionLedger

section MemoryEstimator

/-- Counts gathered inside a tab by the injected `gatherTabMetrics` probe. -/
structure DomMetrics where
  domNodes : Nat
  images : Nat
  iframes : Nat
  scripts : Nat
  stylesheets : Nat
  videos : Nat
  audios : Nat
  deriving DecidableEq, Repr

/-- Embeds `calculateMemoryFromMetrics` with the `MEMORY_WEIGHTS` table:
base 30, perDomNode 0.002 = 2/1000, perImage 0.5 = 1/2, perIframe 10,
perScript 1, perStylesheet 0.5 = 1/2, perVideo 50, perAudio 5 (MB). -/
def calculateMemoryFromMetrics (m : DomMetrics) : ℚ :=
  30 + m.domNodes * (2 / 1000) + m.images * (1 / 2) + m.iframes * 10 +
    m.scripts * 1 + m.stylesheets * (1 / 2) + m.videos * 50 + m.audios * 5

/-- The `MEMORY_WEIGHTS.nonInjectableBase` flat fallback of 20 MB. -/
def nonInjectableBase : ℚ := 20

/-- Models the host `String.prototype.startsWith` by comparing the leading
characters. -/
def strStartsWith (s pre : String) : Bool :=
  decide (s.toList.take pre.toList.length = pre.toList)

/-- Embeds `isInjectableUrl`: falsy urls are rejected, then only the http,
https and file schemes qualify. -/
def isInjectableUrl (url : String) : Bool :=
  if url = "" then false
  else strStartsWith url "http://" || strStartsWith url "https://" ||
    strStartsWith url "file://"

/-- The cache freshness window `CACHE_TTL` (5 minutes in ms). -/
def CACHE_TTL : Int := 5 * 60 * 1000

/-- One memory estimate, as cached and returned per tab. -/
structure MemResult where
  tabId : Nat
  estimateMB : ℚ
  metrics : Option DomMetrics
  source : String
  timestamp : Int
  deriving DecidableEq, Repr

/-- Embeds `fallbackResult(tabId)` with the construction timestamp. -/
def fallbackResult (tabId : Nat) (now : Int) : MemResult :=
  { tabId := tabId, estimateMB := nonInjectableBase, metrics := none,
    source := "fallback", timestamp := now }

/-- JS `Math.round` (half away from zero on the values reached here, which
is half-up: `⌊x + 1/2⌋`). -/
def jsRound (x : ℚ) : Int := ⌊x + 1 / 2⌋

/-- The one-decimal rounding `Math.round(x * 10) / 10`. -/
def roundTenth (x : ℚ) : ℚ := (jsRound (x * 10) : ℚ) / 10

/-- The un-cached path of `estimateTabMemory`: non-injectable urls get the
immediate flat fallback; otherwise the probe (modelling
`chrome.scripting.executeScript` under the 5-second timeout, `none` for any
failure — timeout, crashed tab, injection refusal, missing capability or an
empty result frame) either yields metrics (source `"measured"`) or the
estimate degrades to the fallback value (source `"fallback"`). -/
def estimateTabMemoryFresh (probe : Nat → Option DomMetrics) (now : Int)
    (tabId : Nat) (tabUrl : String) : MemResult :=
  if ¬ isInjectableUrl tabUrl then fallbackResult tabId now
  else
    match probe tabId with
    | some metrics =>
      { tabId := tabId, estimateMB := roundTenth (calculateMemoryFromMetrics metrics),
        metrics := some metrics, source := "measured", timestamp := now }
    | none =>
      { tabId := tabId, estimateMB := roundTenth nonInjectableBase,
        metrics := none, source := "fallback", timestamp := now }

/-- Embeds `estimateTabMemory(tabId, tabUrl)`: a cached entry younger than
`CACHE_TTL` is returned as-is, otherwise the fresh path runs. The
`memoryCache.set` write is not carried in the result: within one batch over
distinct tab ids every task reads the pre-batch cache at its own key and
writes only its own key, so each task is a pure function of that cache. -/
def estimateTabMemory (cache : List (Nat × MemResult))
    (probe : Nat → Option DomMetrics) (now : Int) (tabId : Nat)
    (tabUrl : String) : MemResult :=
  match lookupKey cache tabId with
  | some cached =>
    if now - cached.timestamp < CACHE_TTL then cached
    else estimateTabMemoryFresh probe now tabId tabUrl
  | none => estimateTabMemoryFresh probe now tabId tabUrl

/-- Embeds `estimateAllTabsMemory(tabs)`: every per-tab task settles
(`estimateTabMemory` never rejects — failures are absorbed into fallback
results), and each fulfilled result is written into the `estimates` object
at its tab id. -/
def estimateAllTabsMemory (cache : List (Nat × MemResult))
    (probe : Nat → Option DomMetrics) (now : Int) (tabs : List Tab) :
    List (Nat × MemResult) :=
  (tabs.map (fun t => estimateTabMemory cache probe now t.id t.url)).foldl
    (fun m r => insertKey m r.tabId r) []

end MemoryEstimator

theorem tabId_estimateTabMemoryFresh (probe : Nat → Option DomMetrics)
    (now : Int) (tabId : Nat) (tabUrl : String) :
    (estimateTabMemoryFresh probe now tabId tabUrl).tabId = tabId := by
  unfold estimateTabMemoryFresh
  split
  · rfl
  · cases probe tabId <;> rfl

theorem tabId_estimateTabMemory (cache : List (Nat × MemResult))
    (probe : Nat → Option DomMetrics) (now : Int) (tabId : Nat) (tabUrl : String)
    (hcache : ∀ p ∈ cache, p.2.tabId = p.1) :
    (estimateTabMemory cache probe now tabId tabUrl).tabId = tabId := by
  unfold estimateTabMemory
  cases h : lookupKey cache tabId with
  | some cached =>
    have hc : cached.tabId = tabId := hcache (tabId, cached) (mem_of_lookupKey_eq_some h)
    simp only []
    split
    · exact hc
    · exact tabId_estimateTabMemoryFresh probe now tabId tabUrl
  | none => exact tabId_estimateTabMemoryFresh probe now tabId tabUrl

theorem estimateTabMemory_probe_congr (cache : List (Nat × MemResult))
    (probe probe' : Nat → Option DomMetrics) (now : Int) (tabId : Nat)
    (tabUrl : String) (h : probe tabId = probe' tabId) :
    estimateTabMemory cache probe now tabId tabUrl =
      estimateTabMemory cache probe' now tabId tabUrl := by
  unfold estimateTabMemory estimateTabMemoryFresh
  rw [h]

theorem insertKey_of_lookup_none {κ α : Type} [DecidableEq κ]
    {m : List (κ × α)} {k : κ} (v : α) (h : lookupKey m k = none) :
    insertKey m k v = m ++ [(k, v)] := by
  unfold insertKey
  simp [h]

theorem foldl_insertKey_of_nodup :
    ∀ (rs : List MemResult) (acc : List (Nat × MemResult)),
      (acc.map Prod.fst ++ rs.map (fun r => r.tabId)).Nodup →
      rs.foldl (fun m r => insertKey m r.tabId r) acc =
        acc ++ rs.map (fun r => (r.tabId, r))
  | [], acc, _ => by simp
  | r :: rs, acc, hnd => by
    have hnotmem : r.tabId ∉ acc.map Prod.fst := by
      intro hmem
      have := List.disjoint_of_nodup_append hnd
      exact this hmem (by simp)
    have hlook : lookupKey acc r.tabId = none :=
      (lookupKey_eq_none_iff acc r.tabId).2 hnotmem
    have hstep : (r :: rs).foldl (fun m r => insertKey m r.tabId r) acc =
        rs.foldl (fun m r => insertKey m r.tabId r) (acc ++ [(r.tabId, r)]) := by
      rw [List.foldl_cons, insertKey_of_lookup_none r hlook]
    rw [hstep, foldl_insertKey_of_nodup rs (acc ++ [(r.tabId, r)]) (by
      simp only [List.map_append, List.map_cons, List.map_nil] at hnd ⊢
      simpa [List.append_assoc] using hnd)]
    simp

/-- C5: over tabs with distinct ids (tab ids are unique in the host) and a
well-formed cache, the batch estimate has exactly one entry per tab; each
tab's entry is exactly its own single-tab estimate; a tab whose probe fails
(uncached, injectable url) gets the flat 20 MB fallback entry; and changing
the probe's behaviour at one failing tab id leaves every other tab's entry
unchanged. -/
theorem c5_estimate_all_tabs_memory (cache : List (Nat × MemResult))
    (probe probe' : Nat → Option DomMetrics) (now : Int) (tabs : List Tab)
    (hnd : (tabs.map (fun t => t.id)).Nodup)
    (hcache : ∀ p ∈ cache, p.2.tabId = p.1) :
    (estimateAllTabsMemory cache probe now tabs).length = tabs.length ∧
    (∀ t ∈ tabs, lookupKey (estimateAllTabsMemory cache probe now tabs) t.id =
      some (estimateTabMemory cache probe now t.id t.url)) ∧
    (∀ t ∈ tabs, lookupKey cache t.id = none → isInjectableUrl t.url = true →
      probe t.id = none →
      lookupKey (estimateAllTabsMemory cache probe now tabs) t.id =
        some (MemResult.mk t.id 20 none "fallback" now)) ∧
    (∀ tf : Nat, (∀ k, k ≠ tf → probe' k = probe k) →
      ∀ t ∈ tabs, t.id ≠ tf →
      lookupKey (estimateAllTabsMemory cache probe' now tabs) t.id =
        lookupKey (estimateAllTabsMemory cache probe now tabs) t.id) := by
  have hids : ∀ pr : Nat → Option DomMetrics,
      (tabs.map (fun t => estimateTabMemory cache pr now t.id t.url)).map
        (fun r => r.tabId) = tabs.map (fun t => t.id) := by
    intro pr
    rw [List.map_map]
    refine List.map_congr_left ?_
    intro t _
    exact tabId_estimateTabMemory cache pr now t.id t.url hcache
  have hform : ∀ pr : Nat → Option DomMetrics,
      estimateAllTabsMemory cache pr now tabs =
        (tabs.map (fun t => estimateTabMemory cache pr now t.id t.url)).map
          (fun r => (r.tabId, r)) := by
    intro pr
    unfold estimateAllTabsMemory
    rw [foldl_insertKey_of_nodup _ [] (by simpa [hids pr] using hnd)]
    simp
  have hlookup : ∀ (pr : Nat → Option DomMetrics), ∀ t ∈ tabs,
      lookupKey (estimateAllTabsMemory cache pr now tabs) t.id =
        some (estimateTabMemory cache pr now t.id t.url) := by
    intro pr t ht
    rw [hform pr]
    refine lookupKey_eq_some_of_mem_nodup ?_ ?_
    · refine List.mem_map.2 ⟨estimateTabMemory cache pr now t.id t.url, ?_, ?_⟩
      · exact List.mem_map.2 ⟨t, ht, rfl⟩
      · rw [tabId_estimateTabMemory cache pr now t.id t.url hcache]
    · rw [List.map_map]
      have : (Prod.fst ∘ fun r : MemResult => (r.tabId, r)) = fun r => r.tabId := rfl
      rw [this, hids pr]
      exact hnd
  refine ⟨?_, hlookup probe, ?_, ?_⟩
  · rw [hform probe]
    simp
  · intro t ht hc hinj hpr
    rw [hlookup probe t ht]
    unfold estimateTabMemory estimateTabMemoryFresh
    rw [hc, hinj, hpr]
    have h20 : roundTenth nonInjectableBase = 20 := by
      unfold roundTenth jsRound nonInjectableBase
      norm_num
    simp [h20]
  · intro tf hagree t ht htf
    rw [hlookup probe' t ht, hlookup probe t ht,
      estimateTabMemory_probe_congr cache probe' probe now t.id t.url (hagree t.id htf)]

/-- Witness for C5: two tabs, the probe failing on tab 1, a second probe
differing only at tab 1. -/
theorem c5_estimate_all_tabs_memory_witness :
    ([Tab.mk 1 "https://a.com/" "A" 1, Tab.mk 2 "https://b.com/" "B" 1].map
        (fun t => t.id)).Nodup ∧
    (estimateAllTabsMemory []
        (fun k => if k = 1 then none else some (DomMetrics.mk 100 0 0 0 0 0 0)) 1000
        [Tab.mk 1 "https://a.com/" "A" 1, Tab.mk 2 "https://b.com/" "B" 1]).length = 2 ∧
    lookupKey (estimateAllTabsMemory []
        (fun k => if k = 1 then none else some (DomMetrics.mk 100 0 0 0 0 0 0)) 1000
        [Tab.mk 1 "https://a.com/" "A" 1, Tab.mk 2 "https://b.com/" "B" 1]) 1 =
      some (MemResult.mk 1 20 none "fallback" 1000) ∧
    lookupKey (estimateAllTabsMemory []
        (fun k => if k = 1 then some (DomMetrics.mk 5 0 0 0 0 0 0) else
          some (DomMetrics.mk 100 0 0 0 0 0 0)) 1000
        [Tab.mk 1 "https://a.com/" "A" 1, Tab.mk 2 "https://b.com/" "B" 1]) 2 =
      lookupKey (estimateAllTabsMemory []
        (fun k => if k = 1 then none else some (DomMetrics.mk 100 0 0 0 0 0 0)) 1000
        [Tab.mk 1 "https://a.com/" "A" 1, Tab.mk 2 "https://b.com/" "B" 1]) 2 := by
  have h := c5_estimate_all_tabs_memory []
    (fun k => if k = 1 then none else some (DomMetrics.mk 100 0 0 0 0 0 0))
    (fun k => if k = 1 then some (DomMetrics.mk 5 0 0 0 0 0 0) else
      some (DomMetrics.mk 100 0 0 0 0 0 0)) 1000
    [Tab.mk 1 "https://a.com/" "A" 1, Tab.mk 2 "https://b.com/" "B" 1]
    (by decide) (by intro p hp; cases hp)
  refine ⟨by decide, h.1, ?_, ?_⟩
  · exact h.2.2.1 (Tab.mk 1 "https://a.com/" "A" 1) (by simp) rfl (by decide) rfl
  · exact h.2.2.2 1 (by
      intro k hk
      simp [hk]) (Tab.mk 2 "https://b.com/" "B" 1) (by simp) (by decide)

theorem keys_map_if {κ α : Type} [DecidableEq κ] (m : List (κ × α)) (k : κ)
    (f : α → α) :
    (m.map (fun p => if p.1 = k then (p.1, f p.2) else p)).map Prod.fst =
      m.map Prod.fst := by
  rw [List.map_map]
  refine List.map_congr_left ?_
  intro p _
  by_cases h : p.1 = k <;> simp [h]

theorem keys_filter {κ α : Type} [DecidableEq κ] (m : List (κ × α)) (q : κ → Bool) :
    (m.filter (fun p => q p.1)).map Prod.fst = (m.map Prod.fst).filter q := by
  induction m with
  | nil => rfl
  | cons p ps ih =>
    cases hq : q p.1 <;> simp [List.filter_cons, hq, ih]

theorem lookupKey_filter_pred {κ α : Type} [DecidableEq κ] (q : κ → Bool) :
    ∀ (m : List (κ × α)) (k : κ), q k = true →
      lookupKey (m.filter (fun p => q p.1)) k = lookupKey m k
  | [], _, _ => rfl
  | p :: ps, k, hq => by
    by_cases hp : p.1 = k
    · have : q p.1 = true := by rw [hp, hq]
      simp [List.filter_cons, this, hq, lookupKey, hp]
    · cases hqp : q p.1 with
      | true => simp [List.filter_cons, hqp, lookupKey, hp,
          lookupKey_filter_pred q ps k hq]
      | false => simp [List.filter_cons, hqp, lookupKey, hp,
          lookupKey_filter_pred q ps k hq]

theorem filter_not_mem_length {γ : Type} [DecidableEq γ] (T D : List γ) :
    ((T ++ D).filter (fun s => decide (s ∉ T))).length ≤ D.length := by
  rw [List.filter_append]
  have h1 : T.filter (fun s => decide (s ∉ T)) = [] := by
    rw [List.filter_eq_nil_iff]
    intro x hx
    simp only [decide_eq_true_eq, not_not]
    exact hx
  rw [h1]
  simp only [List.nil_append]
  exact List.length_filter_le _ _

/-- What the retention step of `updateSessionStats` does: the bucket of the
lexicographically-greatest key survives untouched, at most 30 keys remain,
every dropped key is lexicographically at most every kept key, and no key
appears from nowhere. -/
theorem pruneDaily_spec (daily : List (String × DayCounts))
    (hnd : (daily.map Prod.fst).Nodup) (key : String)
    (hmax : ∀ k ∈ daily.map Prod.fst, StrLe k key) :
    lookupKey (pruneDaily daily) key = lookupKey daily key ∧
    ((pruneDaily daily).map Prod.fst).length ≤ 30 ∧
    (∀ k ∈ daily.map Prod.fst, k ∉ (pruneDaily daily).map Prod.fst →
      ∀ k' ∈ (pruneDaily daily).map Prod.fst, StrLe k k') ∧
    (pruneDaily daily).map Prod.fst ⊆ daily.map Prod.fst := by
  have hperm : List.Perm ((daily.map Prod.fst).insertionSort StrLe)
      (daily.map Prod.fst) :=
    List.perm_insertionSort _ _
  have hsort : List.Sorted StrLe ((daily.map Prod.fst).insertionSort StrLe) :=
    List.sorted_insertionSort _ _
  have hsnd : ((daily.map Prod.fst).insertionSort StrLe).Nodup :=
    hperm.nodup_iff.2 hnd
  by_cases hlen : 30 < ((daily.map Prod.fst).insertionSort StrLe).length
  · have hres : pruneDaily daily =
        daily.filter (fun p => decide (p.1 ∉
          ((daily.map Prod.fst).insertionSort StrLe).take
            (((daily.map Prod.fst).insertionSort StrLe).length - 30))) := by
      unfold pruneDaily
      rw [if_pos hlen]
    have htd := List.take_append_drop
      (((daily.map Prod.fst).insertionSort StrLe).length - 30)
      ((daily.map Prod.fst).insertionSort StrLe)
    have hdisj : List.Disjoint
        (((daily.map Prod.fst).insertionSort StrLe).take
          (((daily.map Prod.fst).insertionSort StrLe).length - 30))
        (((daily.map Prod.fst).insertionSort StrLe).drop
          (((daily.map Prod.fst).insertionSort StrLe).length - 30)) := by
      refine List.disjoint_of_nodup_append ?_
      rw [htd]
      exact hsnd
    have hdroplen : (((daily.map Prod.fst).insertionSort StrLe).drop
        (((daily.map Prod.fst).insertionSort StrLe).length - 30)).length = 30 := by
      rw [List.length_drop]
      omega
    have hkeynr : key ∉ ((daily.map Prod.fst).insertionSort StrLe).take
        (((daily.map Prod.fst).insertionSort StrLe).length - 30) := by
      intro hmemtake
      have hdropne : ((daily.map Prod.fst).insertionSort StrLe).drop
          (((daily.map Prod.fst).insertionSort StrLe).length - 30) ≠ [] := by
        intro hc
        rw [hc] at hdroplen
        simp at hdroplen
      obtain ⟨k', hk'⟩ := List.exists_mem_of_ne_nil _ hdropne
      have h1 : StrLe key k' := hsort.rel_of_mem_take_of_mem_drop hmemtake hk'
      have hk'K : k' ∈ daily.map Prod.fst :=
        hperm.mem_iff.1 (List.mem_of_mem_drop hk')
      have h2 : StrLe k' key := hmax k' hk'K
      have hkk : k' = key := strLe_antisymm h2 h1
      rw [hkk] at hk'
      exact hdisj hmemtake hk'
    have hq : (fun s => decide (s ∉
        ((daily.map Prod.fst).insertionSort StrLe).take
          (((daily.map Prod.fst).insertionSort StrLe).length - 30))) key = true := by
      simpa using hkeynr
    have hkeysres : (pruneDaily daily).map Prod.fst =
        (daily.map Prod.fst).filter (fun s => decide (s ∉
          ((daily.map Prod.fst).insertionSort StrLe).take
            (((daily.map Prod.fst).insertionSort StrLe).length - 30))) := by
      rw [hres]
      exact keys_filter daily (fun s => decide (s ∉
        ((daily.map Prod.fst).insertionSort StrLe).take
          (((daily.map Prod.fst).insertionSort StrLe).length - 30)))
    refine ⟨?_, ?_, ?_, ?_⟩
    · rw [hres]
      exact lookupKey_filter_pred (fun s => decide (s ∉
        ((daily.map Prod.fst).insertionSort StrLe).take
          (((daily.map Prod.fst).insertionSort StrLe).length - 30))) daily key hq
    · rw [hkeysres]
      have hpf := (hperm.filter (fun s => decide (s ∉
        ((daily.map Prod.fst).insertionSort StrLe).take
          (((daily.map Prod.fst).insertionSort StrLe).length - 30)))).length_eq
      rw [← hpf]
      have hswap : ((daily.map Prod.fst).insertionSort StrLe).filter
          (fun s => decide (s ∉
            ((daily.map Prod.fst).insertionSort StrLe).take
              (((daily.map Prod.fst).insertionSort StrLe).length - 30))) =
          ((((daily.map Prod.fst).insertionSort StrLe).take
              (((daily.map Prod.fst).insertionSort StrLe).length - 30)) ++
            (((daily.map Prod.fst).insertionSort StrLe).drop
              (((daily.map Prod.fst).insertionSort StrLe).length - 30))).filter
            (fun s => decide (s ∉
              ((daily.map Prod.fst).insertionSort StrLe).take
                (((daily.map Prod.fst).insertionSort StrLe).length - 30))) := by
        rw [htd]
      rw [hswap]
      calc (((((daily.map Prod.fst).insertionSort StrLe).take
              (((daily.map Prod.fst).insertionSort StrLe).length - 30)) ++
            (((daily.map Prod.fst).insertionSort StrLe).drop
              (((daily.map Prod.fst).insertionSort StrLe).length - 30))).filter
            (fun s => decide (s ∉
              ((daily.map Prod.fst).insertionSort StrLe).take
                (((daily.map Prod.fst).insertionSort StrLe).length - 30)))).length
          ≤ (((daily.map Prod.fst).insertionSort StrLe).drop
              (((daily.map Prod.fst).insertionSort StrLe).length - 30)).length :=
            filter_not_mem_length _ _
        _ = 30 := hdroplen
    · intro k hkK hknotres k' hk'res
      rw [hkeysres] at hknotres hk'res
      have hkrem : k ∈ ((daily.map Prod.fst).insertionSort StrLe).take
          (((daily.map Prod.fst).insertionSort StrLe).length - 30) := by
        by_contra hc
        exact hknotres (List.mem_filter.2 ⟨hkK, by simpa using hc⟩)
      have hk'f := List.mem_filter.1 hk'res
      have hk'nr : k' ∉ ((daily.map Prod.fst).insertionSort StrLe).take
          (((daily.map Prod.fst).insertionSort StrLe).length - 30) := by
        simpa using hk'f.2
      have hk'drop : k' ∈ ((daily.map Prod.fst).insertionSort StrLe).drop
          (((daily.map Prod.fst).insertionSort StrLe).length - 30) := by
        have : k' ∈ (daily.map Prod.fst).insertionSort StrLe := hperm.mem_iff.2 hk'f.1
        rw [← htd] at this
        rcases List.mem_append.1 this with h | h
        · exact absurd h hk'nr
        · exact h
      exact hsort.rel_of_mem_take_of_mem_drop hkrem hk'drop
    · rw [hkeysres]
      exact (List.filter_sublist _).subset
  · have hres : pruneDaily daily = daily := by
      unfold pruneDaily
      rw [if_neg hlen]
    refine ⟨by rw [hres], ?_, ?_, ?_⟩
    · rw [hres]
      have := hperm.length_eq
      omega
    · intro k hkK hknotres k' _
      rw [hres] at hknotres
      exact absurd hkK hknotres
    · rw [hres]
      exact fun a ha => ha

/-- C3 counterexample: at 23:00 UTC on 2024-03-10, in a locale two hours
east of UTC, the local calendar date is 2024-03-11 but
`updateSessionStats` buckets the event under the `getTodayKey` value
2024-03-10 (`toISOString` is UTC) — the bucket key is not the local
calendar date of the moment. -/
theorem c3_local_date_counterexample :
    getTodayKey (19792 * 86400000 + 23 * 3600000) = "2024-03-10" ∧
    localDateKey (19792 * 86400000 + 23 * 3600000) 120 = "2024-03-11" ∧
    (updateDaily SessionAction.opened (19792 * 86400000 + 23 * 3600000) []).map
      Prod.fst = ["2024-03-10"] ∧
    ("2024-03-10" : String) ≠ "2024-03-11" :=
  ⟨by decide, by decide, by decide, by decide⟩

/-- C3 (amended): every `updateSessionStats` call increments the
opened/closed counter of the bucket keyed by the UTC calendar date
(`YYYY-MM-DD`) of the moment, and after the update at most the 30
lexicographically-largest date keys survive — every dropped key compares at
most every kept key, and no key appears from nowhere. Stated for stores
whose existing keys are dates up to today (always true under a
non-decreasing clock) and duplicate-free (JS object keys always are). -/
theorem c3_session_stats_utc (action : SessionAction) (now : Int) (s : Store)
    (daily : List (String × DayCounts))
    (hdaily : s.sessionStats = some (SessionStats.mk daily))
    (hnd : (daily.map Prod.fst).Nodup)
    (hmax : ∀ k ∈ daily.map Prod.fst, StrLe k (getTodayKey now)) :
    (updateSessionStats action now s).sessionStats =
      some (SessionStats.mk (updateDaily action now daily)) ∧
    lookupKey (updateDaily action now daily) (getTodayKey now) =
      some (bumpDay ((lookupKey daily (getTodayKey now)).getD (DayCounts.mk 0 0))
        action) ∧
    ((updateDaily action now daily).map Prod.fst).length ≤ 30 ∧
    (∀ k ∈ daily.map Prod.fst, k ∉ (updateDaily action now daily).map Prod.fst →
      ∀ k' ∈ (updateDaily action now daily).map Prod.fst, StrLe k k') ∧
    (updateDaily action now daily).map Prod.fst ⊆
      getTodayKey now :: daily.map Prod.fst := by
  have hwrap : (updateSessionStats action now s).sessionStats =
      some (SessionStats.mk (updateDaily action now daily)) := by
    simp [updateSessionStats, hdaily]
  -- facts about the ensure-today step
  have hE_lookup : lookupKey (ensureToday (getTodayKey now) daily) (getTodayKey now) =
      some ((lookupKey daily (getTodayKey now)).getD (DayCounts.mk 0 0)) := by
    cases h0 : lookupKey daily (getTodayKey now) with
    | some c => simp [ensureToday, h0]
    | none =>
      unfold ensureToday
      rw [h0]
      simp only [Option.isSome_none, Bool.false_eq_true, if_false]
      rw [lookupKey_append_of_none h0]
      simp [lookupKey]
  have hE_keys : (ensureToday (getTodayKey now) daily).map Prod.fst = daily.map Prod.fst ∨
      (ensureToday (getTodayKey now) daily).map Prod.fst =
        daily.map Prod.fst ++ [getTodayKey now] := by
    cases h0 : lookupKey daily (getTodayKey now) with
    | some c =>
      left
      simp [ensureToday, h0]
    | none =>
      right
      simp [ensureToday, h0]
  have hE_nd : ((ensureToday (getTodayKey now) daily).map Prod.fst).Nodup := by
    rcases hE_keys with h | h
    · rw [h]; exact hnd
    · rw [h]
      have hkeyout : getTodayKey now ∉ daily.map Prod.fst := by
        cases h0 : lookupKey daily (getTodayKey now) with
        | some c =>
          exfalso
          have : (ensureToday (getTodayKey now) daily).map Prod.fst =
              daily.map Prod.fst := by simp [ensureToday, h0]
          rw [this] at h
          have := congrArg List.length h
          simp at this
        | none => exact (lookupKey_eq_none_iff daily (getTodayKey now)).1 h0
      simp [List.nodup_append, hnd, hkeyout]
  have hE_mem : getTodayKey now ∈ (ensureToday (getTodayKey now) daily).map Prod.fst := by
    by_contra hc
    have := (lookupKey_eq_none_iff (ensureToday (getTodayKey now) daily)
      (getTodayKey now)).2 hc
    rw [hE_lookup] at this
    cases this
  have hE_sub : (ensureToday (getTodayKey now) daily).map Prod.fst ⊆
      getTodayKey now :: daily.map Prod.fst := by
    rcases hE_keys with h | h <;> rw [h]
    · exact fun a ha => List.mem_cons_of_mem _ ha
    · intro a ha
      rcases List.mem_append.1 ha with ha | ha
      · exact List.mem_cons_of_mem _ ha
      · simp only [List.mem_singleton] at ha
        rw [ha]
        exact List.mem_cons_self _ _
  have hE_max : ∀ k ∈ (ensureToday (getTodayKey now) daily).map Prod.fst,
      StrLe k (getTodayKey now) := by
    intro k hk
    rcases List.mem_cons.1 (hE_sub hk) with h | h
    · rw [h]; exact strLe_refl _
    · exact hmax k h
  have hdaily_sub : daily.map Prod.fst ⊆
      (ensureToday (getTodayKey now) daily).map Prod.fst := by
    rcases hE_keys with h | h <;> rw [h]
    · exact fun a ha => ha
    · exact fun a ha => List.mem_append.2 (Or.inl ha)
  -- facts about the increment step
  have hB_keys : (bumpAt (getTodayKey now) action
      (ensureToday (getTodayKey now) daily)).map Prod.fst =
      (ensureToday (getTodayKey now) daily).map Prod.fst :=
    keys_map_if (ensureToday (getTodayKey now) daily) (getTodayKey now)
      (fun c => bumpDay c action)
  have hB_lookup : lookupKey (bumpAt (getTodayKey now) action
      (ensureToday (getTodayKey now) daily)) (getTodayKey now) =
      some (bumpDay ((lookupKey daily (getTodayKey now)).getD (DayCounts.mk 0 0))
        action) := by
    have h := lookupKey_map_if_self (ensureToday (getTodayKey now) daily)
      (getTodayKey now) (fun c => bumpDay c action)
    rw [hE_lookup] at h
    exact h
  -- transfer through the prune step
  have hspec := pruneDaily_spec
    (bumpAt (getTodayKey now) action (ensureToday (getTodayKey now) daily))
    (by rw [hB_keys]; exact hE_nd) (getTodayKey now)
    (by rw [hB_keys]; exact hE_max)
  refine ⟨hwrap, ?_, ?_, ?_, ?_⟩
  · show lookupKey (pruneDaily (bumpAt (getTodayKey now) action
      (ensureToday (getTodayKey now) daily))) (getTodayKey now) = _
    rw [hspec.1, hB_lookup]
  · show ((pruneDaily (bumpAt (getTodayKey now) action
      (ensureToday (getTodayKey now) daily))).map Prod.fst).length ≤ 30
    exact hspec.2.1
  · intro k hk hknot k' hk'
    exact hspec.2.2.1 k (by rw [hB_keys]; exact hdaily_sub hk) hknot k' hk'
  · intro a ha
    have := hspec.2.2.2 ha
    rw [hB_keys] at this
    exact hE_sub this

/-- Witness for C3 at a concrete store holding one older bucket. -/
theorem c3_session_stats_utc_witness :
    (([("2024-03-01", DayCounts.mk 2 1)].map Prod.fst).Nodup ∧
      ∀ k ∈ [("2024-03-01", DayCounts.mk 2 1)].map Prod.fst,
        StrLe k (getTodayKey (19792 * 86400000 + 23 * 3600000))) ∧
    lookupKey (updateDaily SessionAction.opened (19792 * 86400000 + 23 * 3600000)
        [("2024-03-01", DayCounts.mk 2 1)])
      (getTodayKey (19792 * 86400000 + 23 * 3600000)) = some (DayCounts.mk 1 0) := by
  refine ⟨⟨by decide, by decide⟩, ?_⟩
  have h := (c3_session_stats_utc SessionAction.opened
    (19792 * 86400000 + 23 * 3600000)
    (Store.mk none none none (some (SessionStats.mk [("2024-03-01", DayCounts.mk 2 1)])))
    [("2024-03-01", DayCounts.mk 2 1)] rfl (by decide) (by decide)).2.1
  exact h.trans (by decide)

/-- C1: importing the string produced by export restores the same
tabStats/closedTabs/settings bundle (as read back through `getAllData`)
and leaves sessionStats exactly as it was; moreover, whenever the three
exported keys were present in the store, the round trip is the identity
on the whole store. -/
theorem c1_export_import_roundtrip (s : Store) :
    getAllData (importData (exportData s) s) = getAllData s ∧
    (importData (exportData s) s).sessionStats = s.sessionStats ∧
    (s.tabStats ≠ none → s.closedTabs ≠ none → s.settings ≠ none →
      importData (exportData s) s = s) := by
  refine ⟨?_, rfl, ?_⟩
  · simp [getAllData, importData, exportData]
  · intro h1 h2 h3
    cases hts : s.tabStats with
    | none => exact absurd hts h1
    | some ts =>
      cases hct : s.closedTabs with
      | none => exact absurd hct h2
      | some ct =>
        cases hst : s.settings with
        | none => exact absurd hst h3
        | some st =>
          cases s
          simp_all [importData, exportData, getAllData]

/-- Witness for C1 at a concrete store with all three exported keys present. -/
theorem c1_export_import_roundtrip_witness :
    (some [] : Option (List (Nat × TabStat))) ≠ none ∧
    importData (exportData (Store.mk (some []) (some []) (some getDefaultSettings) none))
        (Store.mk (some []) (some []) (some getDefaultSettings) none) =
      Store.mk (some []) (some []) (some getDefaultSettings) none :=
  ⟨by decide,
    (c1_export_import_roundtrip
        (Store.mk (some []) (some []) (some getDefaultSettings) none)).2.2
      (by decide) (by decide) (by decide)⟩

section StatsEngine

/-- The `(tab, tabStat)` pairs that the `if (tabStat)` branch of
`calculateStats` analyses: tabs of `currentTabs` whose id has an entry in
`tabStats`, in list order. -/
def statPairs (tabStats : List (Nat × TabStat)) (currentTabs : List Tab) :
    List (Tab × TabStat) :=
  currentTabs.filterMap (fun t => (lookupKey tabStats t.id).map (fun st => (t, st)))

/-- The duplicate-detection `urlMap` of `calculateStats` (stats.js 43-87):
stat-bearing tabs grouped by the live `tab.url`, keys in first-seen order.
The pushed `{...tab, ...tabStat}` merge is the TabStat record, because the
spread lists every modelled Tab field again from the TabStat. -/
def urlMap (tabStats : List (Nat × TabStat)) (currentTabs : List Tab) :
    List (String × List TabStat) :=
  groupByKey (fun p => p.1.url) (fun p => p.2) [] (statPairs tabStats currentTabs)

/-- One entry of `stats.duplicateTabs`. -/
structure DupGroup where
  url : String
  count : Nat
  tabs : List TabStat
  deriving DecidableEq, Repr

/-- Embeds `groupBy(currentTabs, 'windowId')` (utils.js `groupBy` reduce).
Object keys are the decimal strings of the windowIds; decimal rendering is
injective, so the keys are modelled as the numbers themselves. -/
def windowGroups (currentTabs : List Tab) : List (Nat × List Tab) :=
  groupByKey (fun t => t.windowId) (fun t => t) [] currentTabs

/-- The fields of the `calculateStats` result (stats.js 11-107) that the
claims refer to. The other derived fields (rankings, averages, domain
counts, recommendations) are not mentioned by any claim and are omitted. -/
structure CalcStats where
  totalTabs : Nat
  totalWindows : Nat
  duplicateTabs : List DupGroup
  deriving DecidableEq, Repr

/-- Embeds the claim-relevant part of `calculateStats`:
`totalTabs = currentTabs.length`,
`totalWindows = Object.keys(windowGroups).length`, and the
`urlMap.forEach` pass that keeps groups with more than one tab whose url is
not the literal new-tab-page url. -/
def calculateStats (tabStats : List (Nat × TabStat)) (currentTabs : List Tab) :
    CalcStats :=
  { totalTabs := currentTabs.length
    totalWindows := (windowGroups currentTabs).length
    duplicateTabs :=
      (urlMap tabStats currentTabs).filterMap (fun p =>
        if 1 < p.2.length ∧ p.1 ≠ "chrome://newtab/" then
          some { url := p.1, count := p.2.length, tabs := p.2 }
        else none) }

/-- An element of the `getInactiveTabs` result: the
`{...tab, ...tabStats[tab.id], inactiveDuration}` merge, which is the
TabStat record plus the duration (the spread lists every modelled Tab field
again from the TabStat). -/
structure InactiveTab where
  stat : TabStat
  inactiveDuration : Int
  deriving DecidableEq, Repr

/-- Embeds `getInactiveTabs` (stats.js 116-134): keep tracked tabs whose
inactive time exceeds `days` in milliseconds, attach the duration, sort by
duration descending (the comparator `b.inactiveDuration - a.inactiveDuration`). -/
def getInactiveTabs (tabStats : List (Nat × TabStat)) (currentTabs : List Tab)
    (now : Int) (days : Nat) : List InactiveTab :=
  List.insertionSort (fun a b => b.inactiveDuration ≤ a.inactiveDuration)
    ((currentTabs.filter (fun t =>
        match lookupKey tabStats t.id with
        | none => false
        | some st => decide ((days : Int) * (24 * 60 * 60 * 1000) < now - st.lastAccessedAt))).filterMap
      (fun t => (lookupKey tabStats t.id).map
        (fun st => InactiveTab.mk st (now - st.lastAccessedAt))))

end StatsEngine

/-- C7: `calculateStats` reports `totalTabs` equal to the number of current
tabs and `totalWindows` equal to the number of distinct windowIds among
them. -/
theorem c7_total_tabs_and_windows (tabStats : List (Nat × TabStat))
    (currentTabs : List Tab) :
    (calculateStats tabStats currentTabs).totalTabs = currentTabs.length ∧
    (calculateStats tabStats currentTabs).totalWindows =
      ((currentTabs.map (fun t => t.windowId)).dedup).length := by
  refine ⟨rfl, ?_⟩
  show (windowGroups currentTabs).length = _
  have hlen : (windowGroups currentTabs).length =
      ((windowGroups currentTabs).map Prod.fst).length := (List.length_map _ _).symm
  rw [hlen]
  have hnd : ((windowGroups currentTabs).map Prod.fst).Nodup :=
    nodup_keys_groupByKey _ _ currentTabs [] (by simp)
  have hnd' : ((currentTabs.map (fun t => t.windowId)).dedup).Nodup :=
    List.nodup_dedup _
  have hset : ((windowGroups currentTabs).map Prod.fst).toFinset =
      ((currentTabs.map (fun t => t.windowId)).dedup).toFinset := by
    ext u
    rw [List.mem_toFinset, List.mem_toFinset, List.mem_dedup,
      show windowGroups currentTabs =
        groupByKey (fun t => t.windowId) (fun t => t) [] currentTabs from rfl,
      mem_keys_groupByKey_iff]
    simp [List.mem_map, eq_comm]
  calc ((windowGroups currentTabs).map Prod.fst).length
      = ((windowGroups currentTabs).map Prod.fst).toFinset.card :=
        (List.toFinset_card_of_nodup hnd).symm
    _ = ((currentTabs.map (fun t => t.windowId)).dedup).toFinset.card := by rw [hset]
    _ = ((currentTabs.map (fun t => t.windowId)).dedup).length :=
        List.toFinset_card_of_nodup hnd'

/-- Two distinct positions satisfying a predicate force a count of at
least two. -/
theorem two_le_countP {α : Type} (p : α → Bool) :
    ∀ (l : List α) (i j : Nat) (hij : i < j) (hj : j < l.length),
      p (l.get ⟨i, Nat.lt_trans hij hj⟩) = true → p (l.get ⟨j, hj⟩) = true →
      2 ≤ l.countP p
  | [], _, j, _, hj, _, _ => absurd hj (by simp)
  | a :: l, 0, j + 1, _, hj, hi, hjp => by
    have hj' : j < l.length := Nat.lt_of_succ_lt_succ hj
    have ha : p a = true := hi
    rw [List.countP_cons_of_pos p l ha]
    have : 0 < l.countP p := by
      rw [List.countP_pos_iff]
      exact ⟨l.get ⟨j, hj'⟩, List.get_mem l _ _, hjp⟩
    omega
  | a :: l, i + 1, j + 1, hij, hj, hi, hjp => by
    have h2 : 2 ≤ l.countP p :=
      two_le_countP p l i j (Nat.lt_of_succ_lt_succ hij) (Nat.lt_of_succ_lt_succ hj) hi hjp
    rw [List.countP_cons]
    omega

/-- C2 counterexample: two tabs share the non-new-tab url
`"https://a.com/"` but neither has a TabStat, and `calculateStats` reports
no duplicate group at all, so the two tabs do not appear together in any
group — the claim fails for tabStats maps missing those tabs. -/
theorem c2_duplicates_counterexample :
    (Tab.mk 1 "https://a.com/" "A" 1).url = (Tab.mk 2 "https://a.com/" "B" 1).url ∧
    (Tab.mk 1 "https://a.com/" "A" 1).url ≠ "chrome://newtab/" ∧
    (calculateStats ([] : List (Nat × TabStat))
        [Tab.mk 1 "https://a.com/" "A" 1, Tab.mk 2 "https://a.com/" "B" 1]).duplicateTabs = [] := by
  refine ⟨rfl, by decide, ?_⟩
  rfl

/-- Counting stat pairs with a given url equals counting current tabs that
are tracked and carry that url. -/
theorem countP_statPairs (tabStats : List (Nat × TabStat)) (currentTabs : List Tab)
    (u : String) :
    (statPairs tabStats currentTabs).countP (fun p => decide (p.1.url = u)) =
      currentTabs.countP (fun t =>
        ((lookupKey tabStats t.id).map (fun st => decide (t.url = u))).getD false) := by
  unfold statPairs
  rw [List.countP_filterMap]
  congr 1
  funext t
  cases lookupKey tabStats t.id <;> simp

/-- The tabs list stored in the `urlMap` group of `u` is the stat list of
the stat pairs whose tab url is `u`, whenever that list is non-empty. -/
theorem lookupKey_urlMap (tabStats : List (Nat × TabStat)) (currentTabs : List Tab)
    (u : String)
    (hne : (statPairs tabStats currentTabs).filter (fun p => decide (p.1.url = u)) ≠ []) :
    lookupKey (urlMap tabStats currentTabs) u =
      some (((statPairs tabStats currentTabs).filter
        (fun p => decide (p.1.url = u))).map Prod.snd) := by
  have h := lookupKey_groupByKey (fun p : Tab × TabStat => p.1.url)
    (fun p : Tab × TabStat => p.2) u (statPairs tabStats currentTabs) []
  have hmapne : ((statPairs tabStats currentTabs).filter
      (fun p => decide (p.1.url = u))).map Prod.snd ≠ [] := by
    simpa using hne
  show lookupKey (groupByKey (fun p : Tab × TabStat => p.1.url)
      (fun p : Tab × TabStat => p.2) [] (statPairs tabStats currentTabs)) u = _
  rw [h]
  simp only [lookupKey]

/-- C2 (amended): any two tabs at distinct positions of `currentTabs` that
both have TabStat entries and share an identical non-new-tab-page url appear
together in exactly one duplicate group, whose count is at least 2; and a
tab whose url is unique in `currentTabs` never has a duplicate group for its
url. -/
theorem c2_duplicate_groups (tabStats : List (Nat × TabStat)) (currentTabs : List Tab)
    (i j : Fin currentTabs.length) (hij : i ≠ j)
    (hu : (currentTabs.get i).url = (currentTabs.get j).url)
    (hnt : (currentTabs.get i).url ≠ "chrome://newtab/")
    (si sj : TabStat)
    (hsi : lookupKey tabStats (currentTabs.get i).id = some si)
    (hsj : lookupKey tabStats (currentTabs.get j).id = some sj) :
    (∃ g ∈ (calculateStats tabStats currentTabs).duplicateTabs,
        g.url = (currentTabs.get i).url ∧ 2 ≤ g.count ∧
        si ∈ g.tabs ∧ sj ∈ g.tabs ∧
        ∀ g' ∈ (calculateStats tabStats currentTabs).duplicateTabs,
          g'.url = (currentTabs.get i).url → g' = g) ∧
    (∀ t ∈ currentTabs,
        currentTabs.countP (fun t' => decide (t'.url = t.url)) = 1 →
        ∀ g' ∈ (calculateStats tabStats currentTabs).duplicateTabs,
          g'.url ≠ t.url) := by
  have hndk : ((urlMap tabStats currentTabs).map Prod.fst).Nodup :=
    nodup_keys_groupByKey _ _ (statPairs tabStats currentTabs) [] (by simp)
  constructor
  · -- the duplicate group for the shared url
    have hPb_i : ((lookupKey tabStats (currentTabs.get i).id).map
        (fun st => decide ((currentTabs.get i).url = (currentTabs.get i).url))).getD false
          = true := by rw [hsi]; simp
    have hPb_j : ((lookupKey tabStats (currentTabs.get j).id).map
        (fun st => decide ((currentTabs.get j).url = (currentTabs.get i).url))).getD false
          = true := by
      rw [hsj]
      simp only [Option.map_some', Option.getD_some, decide_eq_true_eq]
      exact hu.symm
    have hcount2 : 2 ≤ currentTabs.countP (fun t =>
        ((lookupKey tabStats t.id).map
          (fun st => decide (t.url = (currentTabs.get i).url))).getD false) := by
      rcases Nat.lt_trichotomy i.val j.val with hlt | heq | hgt
      · exact two_le_countP _ currentTabs i.val j.val hlt j.isLt hPb_i hPb_j
      · exact absurd (Fin.ext heq) hij
      · exact two_le_countP _ currentTabs j.val i.val hgt i.isLt hPb_j hPb_i
    have hflen : 2 ≤ ((statPairs tabStats currentTabs).filter
        (fun p => decide (p.1.url = (currentTabs.get i).url))).length := by
      have h1 := countP_statPairs tabStats currentTabs (currentTabs.get i).url
      have h2 := List.countP_eq_length_filter
        (fun p : Tab × TabStat => decide (p.1.url = (currentTabs.get i).url))
        (statPairs tabStats currentTabs)
      omega
    have hfne : (statPairs tabStats currentTabs).filter
        (fun p => decide (p.1.url = (currentTabs.get i).url)) ≠ [] := by
      intro hc
      rw [hc] at hflen
      simp at hflen
    have hlook := lookupKey_urlMap tabStats currentTabs (currentTabs.get i).url hfne
    have hmemurl : ((currentTabs.get i).url,
        ((statPairs tabStats currentTabs).filter
          (fun p => decide (p.1.url = (currentTabs.get i).url))).map Prod.snd) ∈
        urlMap tabStats currentTabs := mem_of_lookupKey_eq_some hlook
    have hlen' : 1 < (((statPairs tabStats currentTabs).filter
        (fun p => decide (p.1.url = (currentTabs.get i).url))).map Prod.snd).length := by
      rw [List.length_map]
      omega
    refine ⟨DupGroup.mk (currentTabs.get i).url
        (((statPairs tabStats currentTabs).filter
          (fun p => decide (p.1.url = (currentTabs.get i).url))).map Prod.snd).length
        (((statPairs tabStats currentTabs).filter
          (fun p => decide (p.1.url = (currentTabs.get i).url))).map Prod.snd),
      ?_, rfl, ?_, ?_, ?_, ?_⟩
    · exact List.mem_filterMap.2 ⟨_, hmemurl, by rw [if_pos ⟨hlen', hnt⟩]⟩
    · show 2 ≤ (((statPairs tabStats currentTabs).filter
        (fun p => decide (p.1.url = (currentTabs.get i).url))).map Prod.snd).length
      rw [List.length_map]
      omega
    · refine List.mem_map.2 ⟨(currentTabs.get i, si), List.mem_filter.2 ⟨?_, by simp⟩, rfl⟩
      exact List.mem_filterMap.2 ⟨currentTabs.get i, List.get_mem _ _ _, by rw [hsi]; rfl⟩
    · refine List.mem_map.2 ⟨(currentTabs.get j, sj), List.mem_filter.2 ⟨?_, ?_⟩, rfl⟩
      · exact List.mem_filterMap.2 ⟨currentTabs.get j, List.get_mem _ _ _, by rw [hsj]; rfl⟩
      · simp only [decide_eq_true_eq]
        exact hu.symm
    · intro g' hg' hg'u
      obtain ⟨p, hpmem, hpeq⟩ := List.mem_filterMap.1 hg'
      by_cases hcond : 1 < p.2.length ∧ p.1 ≠ "chrome://newtab/"
      · rw [if_pos hcond] at hpeq
        have hgp : g' = DupGroup.mk p.1 p.2.length p.2 := by
          injection hpeq with h'
          exact h'.symm
        have hp1 : p.1 = (currentTabs.get i).url := by
          rw [hgp] at hg'u
          exact hg'u
        have hpl : lookupKey (urlMap tabStats currentTabs) p.1 = some p.2 :=
          lookupKey_eq_some_of_mem_nodup (by simpa using hpmem) hndk
        rw [hp1, hlook] at hpl
        have hp2 : p.2 = ((statPairs tabStats currentTabs).filter
            (fun p => decide (p.1.url = (currentTabs.get i).url))).map Prod.snd := by
          injection hpl with h'
          exact h'.symm
        rw [hgp, hp1, hp2]
      · rw [if_neg hcond] at hpeq
        simp at hpeq
  · -- a unique url never has a duplicate group
    intro t htmem hcnt g' hg' heq
    obtain ⟨p, hpmem, hpeq⟩ := List.mem_filterMap.1 hg'
    by_cases hcond : 1 < p.2.length ∧ p.1 ≠ "chrome://newtab/"
    · rw [if_pos hcond] at hpeq
      have hgp : g' = DupGroup.mk p.1 p.2.length p.2 := by
        injection hpeq with h'
        exact h'.symm
      have hp1 : p.1 = t.url := by
        rw [hgp] at heq
        exact heq
      have hpl : lookupKey (urlMap tabStats currentTabs) p.1 = some p.2 :=
        lookupKey_eq_some_of_mem_nodup (by simpa using hpmem) hndk
      have hfne : (statPairs tabStats currentTabs).filter
          (fun q => decide (q.1.url = p.1)) ≠ [] := by
        intro hc
        have h := lookupKey_groupByKey (fun q : Tab × TabStat => q.1.url)
          (fun q : Tab × TabStat => q.2) p.1 (statPairs tabStats currentTabs) []
        rw [hc] at h
        simp only [lookupKey, List.map_nil] at h
        rw [show lookupKey (urlMap tabStats currentTabs) p.1 =
          lookupKey (groupByKey (fun q : Tab × TabStat => q.1.url)
            (fun q : Tab × TabStat => q.2) [] (statPairs tabStats currentTabs)) p.1 from rfl,
          h] at hpl
        cases hpl
      have hlook2 := lookupKey_urlMap tabStats currentTabs p.1 hfne
      rw [hlook2] at hpl
      have hp2 : p.2 = ((statPairs tabStats currentTabs).filter
          (fun q => decide (q.1.url = p.1))).map Prod.snd := by
        injection hpl with h'
        exact h'.symm
      have hflen2 : 2 ≤ ((statPairs tabStats currentTabs).filter
          (fun q => decide (q.1.url = p.1))).length := by
        have := hcond.1
        rw [hp2, List.length_map] at this
        omega
      have hcntp : 2 ≤ currentTabs.countP (fun t' =>
          ((lookupKey tabStats t'.id).map
            (fun st => decide (t'.url = p.1))).getD false) := by
        have h1 := countP_statPairs tabStats currentTabs p.1
        have h2 := List.countP_eq_length_filter
          (fun q : Tab × TabStat => decide (q.1.url = p.1))
          (statPairs tabStats currentTabs)
        omega
      have hmono : currentTabs.countP (fun t' =>
          ((lookupKey tabStats t'.id).map
            (fun st => decide (t'.url = p.1))).getD false) ≤
          currentTabs.countP (fun t' => decide (t'.url = t.url)) := by
        refine List.countP_mono_left ?_
        intro x hx hpx
        cases hlx : lookupKey tabStats x.id with
        | none => rw [hlx] at hpx; simp at hpx
        | some st =>
          rw [hlx] at hpx
          simp only [Option.map_some', Option.getD_some, decide_eq_true_eq] at hpx
          simp [hpx, hp1.symm]
      omega
    · rw [if_neg hcond] at hpeq
      simp at hpeq

/-- Witness for C2 at two concrete tracked tabs sharing a url plus a third
with a unique url. -/
theorem c2_duplicate_groups_witness :
    ((⟨0, by decide⟩ : Fin 3) ≠ (⟨1, by decide⟩ : Fin 3)) ∧
    (∃ g ∈ (calculateStats
        [(1, TabStat.mk 1 "https://a.com/" "A" 1 0 0 1 "a.com"),
         (2, TabStat.mk 2 "https://a.com/" "B" 1 0 0 1 "a.com"),
         (3, TabStat.mk 3 "https://b.com/" "C" 1 0 0 1 "b.com")]
        [Tab.mk 1 "https://a.com/" "A" 1, Tab.mk 2 "https://a.com/" "B" 1,
         Tab.mk 3 "https://b.com/" "C" 1]).duplicateTabs,
      g.url = "https://a.com/" ∧ 2 ≤ g.count ∧
      TabStat.mk 1 "https://a.com/" "A" 1 0 0 1 "a.com" ∈ g.tabs ∧
      TabStat.mk 2 "https://a.com/" "B" 1 0 0 1 "a.com" ∈ g.tabs ∧
      ∀ g' ∈ (calculateStats
          [(1, TabStat.mk 1 "https://a.com/" "A" 1 0 0 1 "a.com"),
           (2, TabStat.mk 2 "https://a.com/" "B" 1 0 0 1 "a.com"),
           (3, TabStat.mk 3 "https://b.com/" "C" 1 0 0 1 "b.com")]
          [Tab.mk 1 "https://a.com/" "A" 1, Tab.mk 2 "https://a.com/" "B" 1,
           Tab.mk 3 "https://b.com/" "C" 1]).duplicateTabs,
        g'.url = "https://a.com/" → g' = g) := by
  refine ⟨by decide, ?_⟩
  have h := c2_duplicate_groups
    [(1, TabStat.mk 1 "https://a.com/" "A" 1 0 0 1 "a.com"),
     (2, TabStat.mk 2 "https://a.com/" "B" 1 0 0 1 "a.com"),
     (3, TabStat.mk 3 "https://b.com/" "C" 1 0 0 1 "b.com")]
    [Tab.mk 1 "https://a.com/" "A" 1, Tab.mk 2 "https://a.com/" "B" 1,
     Tab.mk 3 "https://b.com/" "C" 1]
    ⟨0, by decide⟩ ⟨1, by decide⟩ (by decide) (by decide) (by decide)
    (TabStat.mk 1 "https://a.com/" "A" 1 0 0 1 "a.com")
    (TabStat.mk 2 "https://a.com/" "B" 1 0 0 1 "a.com")
    (by decide) (by decide)
  exact h.1

/-- C6: `getInactiveTabs` is antitone in the `days` threshold — every tab
returned at a larger threshold is also returned at a smaller one. -/
theorem c6_get_inactive_tabs_antitone (tabStats : List (Nat × TabStat))
    (currentTabs : List Tab) (now : Int) (d1 d2 : Nat) (hd : d1 ≤ d2)
    (x : InactiveTab) (hx : x ∈ getInactiveTabs tabStats currentTabs now d2) :
    x ∈ getInactiveTabs tabStats currentTabs now d1 := by
  unfold getInactiveTabs at hx ⊢
  rw [List.mem_insertionSort] at hx ⊢
  obtain ⟨t, ht, hmap⟩ := List.mem_filterMap.1 hx
  obtain ⟨htl, hp⟩ := List.mem_filter.1 ht
  refine List.mem_filterMap.2 ⟨t, List.mem_filter.2 ⟨htl, ?_⟩, hmap⟩
  cases hls : lookupKey tabStats t.id with
  | none => rw [hls] at hp; simp at hp
  | some st =>
    rw [hls] at hp
    simp only [decide_eq_true_eq] at hp ⊢
    calc (d1 : Int) * (24 * 60 * 60 * 1000)
        ≤ (d2 : Int) * (24 * 60 * 60 * 1000) := by
          have : (d1 : Int) ≤ (d2 : Int) := by exact_mod_cast hd
          nlinarith
      _ < now - st.lastAccessedAt := hp

/-- Witness for C6: a tab inactive for ten days is returned at thresholds 2
and 1. -/
theorem c6_get_inactive_tabs_antitone_witness :
    (1 : Nat) ≤ 2 ∧
    InactiveTab.mk (TabStat.mk 1 "https://a.com/" "A" 1 0 0 1 "a.com") 864000000 ∈
      getInactiveTabs [(1, TabStat.mk 1 "https://a.com/" "A" 1 0 0 1 "a.com")]
        [Tab.mk 1 "https://a.com/" "A" 1] 864000000 2 ∧
    InactiveTab.mk (TabStat.mk 1 "https://a.com/" "A" 1 0 0 1 "a.com") 864000000 ∈
      getInactiveTabs [(1, TabStat.mk 1 "https://a.com/" "A" 1 0 0 1 "a.com")]
        [Tab.mk 1 "https://a.com/" "A" 1] 864000000 1 :=
  ⟨by decide, by decide,
    c6_get_inactive_tabs_antitone
      [(1, TabStat.mk 1 "https://a.com/" "A" 1 0 0 1 "a.com")]
      [Tab.mk 1 "https://a.com/" "A" 1] 864000000 1 2 (by decide)
      (InactiveTab.mk (TabStat.mk 1 "https://a.com/" "A" 1 0 0 1 "a.com") 864000000)
      (by decide)⟩

section HealthScore

/-- Recency block of `calculateTabHealthScore`: last accessed within 1 hour
scores 40, within 24 hours 30, within 7 days 15, otherwise 5. -/
def recencyScoreOf (hoursSinceAccess : ℚ) : Int :=
  if hoursSinceAccess < 1 then 40
  else if hoursSinceAccess < 24 then 30
  else if hoursSinceAccess < 24 * 7 then 15
  else 5

/-- Frequency block of `calculateTabHealthScore`: 10+ activations score 30,
5-9 score 20, 2-4 score 10, otherwise 5. -/
def frequencyScoreOf (activations : Nat) : Int :=
  if 10 ≤ activations then 30
  else if 5 ≤ activations then 20
  else if 2 ≤ activations then 10
  else 5

/-- Age-appropriateness block of `calculateTabHealthScore`: tabs younger
than one day score 30, otherwise the score follows the usage ratio
(source literals `0.5` and `0.1` are the rationals 1/2 and 1/10). -/
def ageScoreOf (ageInDays usageRatio : ℚ) : Int :=
  if ageInDays < 1 then 30
  else if 1 ≤ usageRatio then 30
  else if 1 / 2 ≤ usageRatio then 20
  else if 1 / 10 ≤ usageRatio then 10
  else 5

/-- Embeds `calculateTabHealthScore` (stats module, health-score section):
`activations` is `tabStat.activationCount || 1`; the final `Math.round` is
the identity because the three blocks are integers. -/
def calculateTabHealthScore (tabStat : Option TabStat) (now : Int) : Int :=
  match tabStat with
  | none => 0
  | some ts =>
    let hoursSinceAccess : ℚ := ((now - ts.lastAccessedAt : Int) : ℚ) / (60 * 60 * 1000)
    let activations : Nat := if ts.activationCount = 0 then 1 else ts.activationCount
    let ageInDays : ℚ := ((now - ts.createdAt : Int) : ℚ) / (24 * 60 * 60 * 1000)
    let usageRatio : ℚ := (activations : ℚ) / max ageInDays 1
    recencyScoreOf hoursSinceAccess + frequencyScoreOf activations +
      ageScoreOf ageInDays usageRatio

theorem recencyScoreOf_bounds (h : ℚ) : 5 ≤ recencyScoreOf h ∧ recencyScoreOf h ≤ 40 := by
  unfold recencyScoreOf
  split_ifs <;> norm_num

theorem frequencyScoreOf_bounds (a : Nat) :
    5 ≤ frequencyScoreOf a ∧ frequencyScoreOf a ≤ 30 := by
  unfold frequencyScoreOf
  split_ifs <;> norm_num

theorem ageScoreOf_bounds (a u : ℚ) : 5 ≤ ageScoreOf a u ∧ ageScoreOf a u ≤ 30 := by
  unfold ageScoreOf
  split_ifs <;> norm_num

end HealthScore

/-- C4: the health score is an integer in [0,100]; a missing TabStat scores
0; a tab last accessed less than one hour before `now`, with at least 10
activations and age under one day, scores exactly 100. -/
theorem c4_health_score_range (tabStat : Option TabStat) (now : Int) :
    (0 ≤ calculateTabHealthScore tabStat now ∧
      calculateTabHealthScore tabStat now ≤ 100) ∧
    calculateTabHealthScore none now = 0 ∧
    (∀ ts : TabStat, now - ts.lastAccessedAt < 3600000 →
      10 ≤ ts.activationCount → now - ts.createdAt < 86400000 →
      calculateTabHealthScore (some ts) now = 100) := by
  refine ⟨?_, rfl, ?_⟩
  · cases tabStat with
    | none => simp [calculateTabHealthScore]
    | some ts =>
      have h1 := recencyScoreOf_bounds (((now - ts.lastAccessedAt : Int) : ℚ) / (60 * 60 * 1000))
      have h2 := frequencyScoreOf_bounds (if ts.activationCount = 0 then 1 else ts.activationCount)
      have h3 := ageScoreOf_bounds
        (((now - ts.createdAt : Int) : ℚ) / (24 * 60 * 60 * 1000))
        (((if ts.activationCount = 0 then 1 else ts.activationCount : Nat) : ℚ) /
          max (((now - ts.createdAt : Int) : ℚ) / (24 * 60 * 60 * 1000)) 1)
      simp only [calculateTabHealthScore]
      omega
  · intro ts hrec hact hage
    have ha0 : ts.activationCount ≠ 0 := by omega
    have hrecq : ((now - ts.lastAccessedAt : Int) : ℚ) / (60 * 60 * 1000) < 1 := by
      rw [div_lt_one (by norm_num)]
      exact_mod_cast hrec
    have hageq : ((now - ts.createdAt : Int) : ℚ) / (24 * 60 * 60 * 1000) < 1 := by
      rw [div_lt_one (by norm_num)]
      exact_mod_cast hage
    simp only [calculateTabHealthScore, recencyScoreOf, frequencyScoreOf, ageScoreOf,
      if_neg ha0, if_pos hrecq, if_pos hageq, if_pos hact]
    norm_num

/-- Witness for C4: a fresh, frequently used tab scores 100. -/
theorem c4_health_score_range_witness :
    ((2000000 : Int) - 1000000 < 3600000 ∧ 10 ≤ (12 : Nat) ∧
      (2000000 : Int) - 500000 < 86400000) ∧
    calculateTabHealthScore
        (some (TabStat.mk 9 "https://a.com/" "A" 1 500000 1000000 12 "a.com")) 2000000 = 100 :=
  ⟨⟨by decide, by decide, by decide⟩,
    (c4_health_score_range
        (some (TabStat.mk 9 "https://a.com/" "A" 1 500000 1000000 12 "a.com")) 2000000).2.2
      (TabStat.mk 9 "https://a.com/" "A" 1 500000 1000000 12 "a.com")
      (by decide) (by decide) (by decide)⟩

/-- C8: `clearAllStats` empties the stored TabStats map and ClosedTabRecord
list and leaves the stored Settings record (and sessionStats) unchanged. -/
theorem c8_clear_all_stats (s : Store) :
    (clearAllStats s).tabStats = some [] ∧
    (clearAllStats s).closedTabs = some [] ∧
    (clearAllStats s).settings = s.settings ∧
    (clearAllStats s).sessionStats = s.sessionStats :=
  ⟨rfl, rfl, rfl, rfl⟩

end TabStats
